import Mathlib

/-!
# The `profile` command line driver of jiri (`profiles/commandline/driver.go`)

A shallow embedding of the driver and the properties of its subcommands
`install`, `update`, `uninstall` and `env`.

The driver is stateful Go code working on three pieces of ambient state: the
package `v.io/jiri/profiles` (the registry of Managers and the manifest held
in memory), the Managers themselves, and the standard output of the tool
context.  The embedding threads one explicit `State` through every function.
Package `profiles` and the Manager implementations are not part of the
sources at hand; they are taken as the parameter `World`, whose operations act
on an arbitrary state type `σ`.  Every call the driver makes to a Manager, to
`profiles.Read` or to `profiles.Write` is appended to the trace
`State.calls`, in the order in which the source makes it.
-/

namespace Commandline

/-! ## Data -/

/-- A non-nil Go `error` value.  `profiles.ErrNoIncrementalUpdate` is a single
distinguished value which the driver compares with `==`; every other error is
identified with its text. -/
inductive Error where
  | ErrNoIncrementalUpdate : Error
  | errorf (text : String) : Error
deriving DecidableEq, Repr

/-- The fields of `profiles.Target` the driver reads, and whether the target
flag was set on the command line (`Target.IsSet`). -/
structure Target where
  Tag : String
  Arch : String
  OS : String
  Version : String
  InstallationDir : String
  /-- The slice `Env.Vars` of `key=value` strings. -/
  Vars : List String
  IsSet : Bool
deriving DecidableEq, Repr

/-- The fields of `profiles.Profile` the driver reads. -/
structure Profile where
  Name : String
  Root : String
  Targets : List Target
deriving DecidableEq, Repr

/-- The package level flag variables of the driver. -/
structure Flags where
  targetFlag : Target
  manifestFlag : String
  profileFlag : String
  rootDir : String
  forceFlag : Bool
  allFlag : Bool
deriving DecidableEq, Repr

/-- One call made by the driver to a Manager or to the manifest store. -/
inductive Call (μ : Type) where
  | SetRoot (mgr : μ) (root : String)
  | Install (mgr : μ) (target : Target)
  | Update (mgr : μ) (target : Target)
  | Uninstall (mgr : μ) (target : Target)
  | Read (path : String)
  | Write (path : String)
deriving DecidableEq, Repr

/-- A call together with the `error` it returned (`none` is `nil`; `SetRoot`
returns nothing and is recorded with `none`). -/
structure Event (μ : Type) where
  call : Call μ
  result : Option Error
deriving DecidableEq, Repr

/-- The state a command runs in: the state of package `profiles` and of the
Managers (`pkg`, which holds the manifest in memory), the trace of calls made
so far, and what has been written to the standard output and error streams. -/
structure State (σ μ : Type) where
  pkg : σ
  calls : List (Event μ)
  stdout : String
  stderr : String

/-- How a command ends: it returns an `error` (`none` is `nil`), or the Go
runtime panics because a method is called on a nil Manager. -/
inductive Outcome where
  | returned (err : Option Error)
  | panicked
deriving DecidableEq, Repr

/-- What the driver uses and the sources at hand do not hold: package
`profiles`, the Manager interface, and the parts of Go's `fmt` that depend on
more than plain text.  A Manager is a value of `μ`; `LookupManager` answers
`none` for the nil Manager. -/
structure World (σ μ : Type) where
  /-- The registry: `profiles.LookupManager`. -/
  LookupManager : String → Option μ
  /-- The function `profiles.LookupProfile`, read from the manifest in memory. -/
  LookupProfile : String → σ → Option Profile
  /-- The function `profiles.HasTarget`. -/
  HasTarget : String → Target → σ → Bool
  /-- The function `profiles.FindTarget`. -/
  FindTarget : List Target → Target → Option Target
  /-- The function `profiles.ValidateRequestedProfiles`. -/
  ValidateRequestedProfiles : List String → σ → Option Error
  /-- The function `profiles.Read` on a manifest path. -/
  Read : String → σ → Option Error × σ
  /-- The function `profiles.Write` on a manifest path. -/
  Write : String → σ → Option Error × σ
  /-- The method `Manager.Name`. -/
  Name : μ → String
  /-- The method `Manager.SetRoot`. -/
  SetRoot : μ → String → σ → σ
  /-- The method `Manager.Install`. -/
  Install : μ → Target → σ → Option Error × σ
  /-- The method `Manager.Update`. -/
  Update : μ → Target → σ → Option Error × σ
  /-- The method `Manager.Uninstall`. -/
  Uninstall : μ → Target → σ → Option Error × σ
  /-- The text of `profiles.ErrNoIncrementalUpdate`. -/
  noIncrementalUpdateText : String
  /-- What `fmt` prints for a `profiles.Target` under the verb `%v`. -/
  targetV : Target → String
  /-- What `fmt` prints for a `profiles.Target` under the verb `%q`. -/
  targetQ : Target → String
  /-- The body of `strconv.Quote` (between the two quotes) for a string that
  holds a character needing an escape. -/
  quoteEscaped : String → String
  /-- What `fmt.Fprintf` writes, given no operand, for a format that starts
  with a `%` directive carrying a flag, a width, a precision or an index. -/
  formatVerbs : String → String
  /-- The order in which `range` visits the entries of the map of declared
  variables: Go leaves it open, and every order is some permutation. -/
  rangeVars : List (String × String) → List (String × String)
  /-- The order in which `range` visits the entries of `pseudoVariables`, left
  open in the same way. -/
  rangePseudo : List (String × (Target → String)) → List (String × (Target → String))

variable {σ μ : Type}

/-- The text of an error, as `err.Error()` and the verb `%v` give it. -/
def Error.text (W : World σ μ) : Error → String
  | .ErrNoIncrementalUpdate => W.noIncrementalUpdateText
  | .errorf t => t

/-- Appends a call and its result to the trace. -/
def State.record (st : State σ μ) (c : Call μ) (r : Option Error) : State σ μ :=
  { st with calls := st.calls ++ [⟨c, r⟩] }

/-- Appends text to the standard output. -/
def State.print (st : State σ μ) (s : String) : State σ μ :=
  { st with stdout := st.stdout ++ s }

/-- Appends text to the standard error. -/
def State.printErr (st : State σ μ) (s : String) : State σ μ :=
  { st with stderr := st.stderr ++ s }

/-! ## Manager calls, with their trace entries -/

/-- The call `mgr.SetRoot(rootDir)`. -/
def callSetRoot (W : World σ μ) (mgr : μ) (root : String) (st : State σ μ) : State σ μ :=
  { st.record (.SetRoot mgr root) none with pkg := W.SetRoot mgr root st.pkg }

/-- The call `mgr.Install(ctx, target)`. -/
def callInstall (W : World σ μ) (mgr : μ) (target : Target) (st : State σ μ) :
    Option Error × State σ μ :=
  let r := W.Install mgr target st.pkg
  (r.1, { st.record (.Install mgr target) r.1 with pkg := r.2 })

/-- The call `mgr.Update(ctx, target)`. -/
def callUpdate (W : World σ μ) (mgr : μ) (target : Target) (st : State σ μ) :
    Option Error × State σ μ :=
  let r := W.Update mgr target st.pkg
  (r.1, { st.record (.Update mgr target) r.1 with pkg := r.2 })

/-- The call `mgr.Uninstall(ctx, target)`. -/
def callUninstall (W : World σ μ) (mgr : μ) (target : Target) (st : State σ μ) :
    Option Error × State σ μ :=
  let r := W.Uninstall mgr target st.pkg
  (r.1, { st.record (.Uninstall mgr target) r.1 with pkg := r.2 })

/-- The call `profiles.Read(ctx, manifestFlag)`. -/
def callRead (W : World σ μ) (path : String) (st : State σ μ) : Option Error × State σ μ :=
  let r := W.Read path st.pkg
  (r.1, { st.record (.Read path) r.1 with pkg := r.2 })

/-- The call `profiles.Write(ctx, manifestFlag)`. -/
def callWrite (W : World σ μ) (path : String) (st : State σ μ) : Option Error × State σ μ :=
  let r := W.Write path st.pkg
  (r.1, { st.record (.Write path) r.1 with pkg := r.2 })

/-! ## Text: the parts of `strings`, `strconv` and `fmt` the driver uses -/

/-- The function `strings.TrimSuffix`: `s` without the trailing `suffix`, or
`s` itself when it does not end in `suffix`. -/
def TrimSuffix (s suffix : String) : String :=
  if suffix.data.isSuffixOf s.data then
    ⟨s.data.take (s.data.length - suffix.data.length)⟩
  else s

/-- A character `strconv.Quote` copies unchanged: printable ASCII other than
the double quote and the backslash. -/
def plainChar (c : Char) : Bool :=
  decide (32 ≤ c.toNat) && decide (c.toNat ≤ 126) && c != '"' && c != '\\'

/-- The function `strconv.Quote`, which the verb `%q` applies to a string. -/
def Quote (W : World σ μ) (s : String) : String :=
  "\"" ++ (if s.data.all plainChar then s else W.quoteEscaped s) ++ "\""

/-- A character that, right after `%`, starts a flag, a width, a precision or
an argument index rather than being the verb. -/
def directiveChar (c : Char) : Bool :=
  c == '#' || c == '0' || c == '+' || c == '-' || c == ' ' || c == '[' || c == '*' ||
    c == '.' || c.isDigit

/-- What `fmt.Fprintf(w, format)` writes when it is given no operand: text is
copied up to a `%`; `%%` gives `%`; a `%` that ends the format gives
`%!(NOVERB)`; a `%` followed at once by a verb `c` gives `%!c(MISSING)`, as
there is no operand for it; a directive with flags, width, precision or index
is left to `World.formatVerbs`, together with the rest of the format. -/
def expandVerbs (W : World σ μ) : List Char → List Char
  | [] => []
  | c :: rest =>
    if c ≠ '%' then c :: expandVerbs W rest
    else
      match rest with
      | [] => "%!(NOVERB)".data
      | v :: rest2 =>
        if v = '%' then '%' :: expandVerbs W rest2
        else if directiveChar v then (W.formatVerbs ⟨c :: v :: rest2⟩).data
        else "%!".data ++ v :: ("(MISSING)".data ++ expandVerbs W rest2)

/-- The text written by `fmt.Fprintf(w, format)` with no operand. -/
def Fprintf0 (W : World σ μ) (format : String) : String :=
  ⟨expandVerbs W format.data⟩

/-- The text of `fmt.Sprintf("%s=%q ", k, v)`. -/
def SprintfKeyQuoted (W : World σ μ) (k v : String) : String :=
  k ++ "=" ++ Quote W v ++ " "

/-- The function `envvar.SplitKeyValue`: the split of `key=value` at its first
`=`; without `=` the value is empty. -/
def SplitKeyValue (kv : String) : String × String :=
  let k := kv.data.takeWhile (fun c => c != '=')
  (⟨k⟩, ⟨(kv.data.drop k.length).drop 1⟩)

/-- The assignment `m[k] = v` on a Go map, kept as a list of entries with
distinct keys. -/
def mapStore (m : List (String × String)) (k v : String) : List (String × String) :=
  if m.any (fun e => e.1 == k) then m.map (fun e => if e.1 == k then (k, v) else e)
  else m ++ [(k, v)]

/-- The function `envvar.SliceToMap`: the map of the `key=value` strings of a
slice; a later entry replaces an earlier one with the same key, and an entry
with an empty key is left out. -/
def SliceToMap (slice : List String) : List (String × String) :=
  slice.foldl (fun m kv =>
    let e := SplitKeyValue kv
    if e.1 ≠ "" then mapStore m e.1 e.2 else m) []

/-! ## `applyCommand` -/

/-- The type of the step function handed to `applyCommand`. -/
abbrev Step (σ μ : Type) := μ → Target → State σ μ → Option Error × State σ μ

/-- The function `applyCommand`: for each name in turn, look the Manager up,
set its root and apply `fn`; return the first error of `fn`.  A name without a
Manager makes `mgr.SetRoot` panic. -/
def applyCommand (W : World σ μ) (rootDir : String) (fn : Step σ μ) :
    List String → Target → State σ μ → Outcome × State σ μ
  | [], _, st => (.returned none, st)
  | n :: names, target, st =>
    match W.LookupManager n with
    | none => (.panicked, st)
    | some mgr =>
      match fn mgr target (callSetRoot W mgr rootDir st) with
      | (some err, st2) => (.returned (some err), st2)
      | (none, st2) => applyCommand W rootDir fn names target st2

/-! ## Commands -/

/-- The function `initCommand`: the checks and the manifest read that start
`install`, `update` and `uninstall`. -/
def initCommand (W : World σ μ) (fl : Flags) (args : List String) (st : State σ μ) :
    Option Error × State σ μ :=
  if args.length = 0 then
    (some (.errorf "no profiles specified"), st)
  else
    match W.ValidateRequestedProfiles args st.pkg with
    | some err => (some err, st)
    | none =>
      match callRead W fl.manifestFlag st with
      | (some err, st1) =>
        (some err, st1.printErr ("Failed to read manifest: " ++ err.text W))
      | (none, st1) => (none, st1)

/-- The function `logResult`: two writes to the standard output. -/
def logResult (W : World σ μ) (action : String) (mgr : μ) (target : Target)
    (err : Option Error) (st : State σ μ) : State σ μ :=
  let st1 := st.print (action ++ ": " ++ W.Name mgr ++ " " ++ target.Tag ++ "=" ++
    target.Arch ++ "-" ++ target.OS ++ "@" ++ target.Version ++ ": ")
  match err with
  | none => st1.print "success\n"
  | some e => st1.print (e.text W ++ "\n")

/-- The body of the loop of `runInstall` over its arguments: a name whose
target is there already is reported and left out, unless the force flag is
set; any other name is appended to `names`. -/
def skipInstalledStep (W : World σ μ) (fl : Flags) (acc : List String × State σ μ)
    (name : String) : List String × State σ μ :=
  if !fl.forceFlag && W.HasTarget name fl.targetFlag acc.2.pkg then
    (acc.1, acc.2.print (name ++ " " ++ W.targetV fl.targetFlag ++ " is already installed\n"))
  else
    (acc.1 ++ [name], acc.2)

/-- The loop of `runInstall` that collects the names to install and reports
the others as already installed. -/
def skipInstalled (W : World σ μ) (fl : Flags) (args : List String) (st : State σ μ) :
    List String × State σ μ :=
  args.foldl (skipInstalledStep W fl) ([], st)

/-- The step function `runInstall` hands to `applyCommand`. -/
def installStep (W : World σ μ) : Step σ μ := fun mgr target st =>
  let r := callInstall W mgr target st
  (r.1, logResult W "Installed" mgr target r.1 r.2)

/-- What a command does with the result of `applyCommand` when it writes the
manifest only after a nil result: an error of `applyCommand` is returned as it
is, and otherwise the result of `profiles.Write(ctx, manifestFlag)` is. -/
def writeIfNil (W : World σ μ) (fl : Flags) (r : Outcome × State σ μ) : Outcome × State σ μ :=
  match r with
  | (.returned none, st) =>
    let w := callWrite W fl.manifestFlag st
    (.returned w.1, w.2)
  | (.returned (some err), st) => (.returned (some err), st)
  | (.panicked, st) => (.panicked, st)

/-- The function `runInstall`. -/
def runInstall (W : World σ μ) (fl : Flags) (args : List String) (st : State σ μ) :
    Outcome × State σ μ :=
  match initCommand W fl args st with
  | (some err, st1) => (.returned (some err), st1)
  | (none, st1) =>
    let names := skipInstalled W fl args st1
    writeIfNil W fl (applyCommand W fl.rootDir (installStep W) names.1 fl.targetFlag names.2)

/-- The step function `runUpdate` hands to `applyCommand`. -/
def updateStep (W : World σ μ) (fl : Flags) : Step σ μ := fun mgr target st =>
  let u := callUpdate W mgr target st
  if (fl.forceFlag && u.1 == none) || u.1 == some .ErrNoIncrementalUpdate then
    match callUninstall W mgr target u.2 with
    | (some err, st2) => (some err, logResult W "Uninstalled" mgr target (some err) st2)
    | (none, st2) =>
      match callInstall W mgr target st2 with
      | (some err, st3) => (some err, logResult W "Installed" mgr target (some err) st3)
      | (none, st3) => (none, logResult W "Updated" mgr target none st3)
  else
    (u.1, logResult W "Updated" mgr target u.1 u.2)

/-- The function `runUpdate`. -/
def runUpdate (W : World σ μ) (fl : Flags) (args : List String) (st : State σ μ) :
    Outcome × State σ μ :=
  match initCommand W fl args st with
  | (some err, st1) => (.returned (some err), st1)
  | (none, st1) =>
    writeIfNil W fl (applyCommand W fl.rootDir (updateStep W fl) args fl.targetFlag st1)

/-- The step function `runUninstall` hands to `applyCommand` without `--all`. -/
def uninstallStep (W : World σ μ) : Step σ μ := fun mgr target st =>
  let r := callUninstall W mgr target st
  (r.1, logResult W "Uninstalling" mgr target r.1 r.2)

/-- The inner loop of `runUninstall --all` over the targets of one profile.
The targets are those the profile held when the loop started. -/
def uninstallTargets (W : World σ μ) (mgr : μ) : List Target → State σ μ →
    Option Error × State σ μ
  | [], st => (none, st)
  | target :: targets, st =>
    match callUninstall W mgr target st with
    | (some err, st1) => (some err, logResult W "Uninstalled" mgr target (some err) st1)
    | (none, st1) => uninstallTargets W mgr targets (logResult W "Uninstalled" mgr target none st1)

/-- The outer loop of `runUninstall --all` over the profile names. -/
def uninstallAll (W : World σ μ) (fl : Flags) : List String → State σ μ →
    Option Error × State σ μ
  | [], st => (none, st)
  | name :: args, st =>
    match W.LookupProfile name st.pkg, W.LookupManager name with
    | some profile, some mgr =>
      match uninstallTargets W mgr profile.Targets (callSetRoot W mgr fl.rootDir st) with
      | (some err, st1) => (some err, st1)
      | (none, st1) => uninstallAll W fl args st1
    | _, _ => uninstallAll W fl args st

/-- The function `runUninstall`.  Without `--all` the result of `applyCommand`
is dropped and the manifest is written whatever it was. -/
def runUninstall (W : World σ μ) (fl : Flags) (args : List String) (st : State σ μ) :
    Outcome × State σ μ :=
  match initCommand W fl args st with
  | (some err, st1) => (.returned (some err), st1)
  | (none, st1) =>
    if fl.allFlag && fl.targetFlag.IsSet then
      (.returned (some (.errorf "don't specify a target in conjunction with --all")), st1)
    else if fl.allFlag then
      match uninstallAll W fl args st1 with
      | (some err, st2) => (.returned (some err), st2)
      | (none, st2) =>
        let w := callWrite W fl.manifestFlag st2
        (.returned w.1, w.2)
    else
      match applyCommand W fl.rootDir (uninstallStep W) args fl.targetFlag st1 with
      | (.panicked, st2) => (.panicked, st2)
      | (.returned _, st2) =>
        let w := callWrite W fl.manifestFlag st2
        (.returned w.1, w.2)

/-! ## `env` -/

/-- The map `pseudoVariables`. -/
def pseudoVariables : List (String × (Target → String)) :=
  [("V23_TARGET_INSTALLATION_DIR", fun t => t.InstallationDir),
   ("V23_TARGET_VERSION", fun t => t.Version)]

/-- The function `expr`. -/
def expr (W : World σ μ) (k v : String) (trimmed : Bool) : String :=
  if trimmed then v else SprintfKeyQuoted W k v

/-- The buffer `runEnv` fills when no variable name is requested. -/
def envAll (W : World σ μ) (vars : List (String × String)) (target : Target) : String :=
  let buf := (W.rangeVars vars).foldl (fun buf kv => buf ++ SprintfKeyQuoted W kv.1 kv.2) ""
  (W.rangePseudo pseudoVariables).foldl
    (fun buf kf => buf ++ SprintfKeyQuoted W kf.1 (kf.2 target)) buf

/-- The buffer `runEnv` fills from the requested names. -/
def envRequested (W : World σ μ) (vars : List (String × String)) (target : Target)
    (args : List String) : String :=
  args.foldl (fun buf arg =>
    let name := TrimSuffix arg "="
    let trimmed := name != arg
    let buf1 := (W.rangePseudo pseudoVariables).foldl
      (fun b kf => if kf.1 == name then b ++ expr W kf.1 (kf.2 target) trimmed else b) buf
    (W.rangeVars vars).foldl
      (fun b kv => if kv.1 == name then b ++ expr W kv.1 kv.2 trimmed else b) buf1) ""

/-- The function `runEnv`.  The buffer, less one trailing space and followed by
a newline, is handed to `fmt.Fprintf` as its format. -/
def runEnv (W : World σ μ) (fl : Flags) (args : List String) (st : State σ μ) :
    Outcome × State σ μ :=
  if fl.profileFlag.length = 0 then
    (.returned (some (.errorf "no profile was specified using --profile")), st)
  else
    match callRead W fl.manifestFlag st with
    | (some err, st1) =>
      (.returned (some (.errorf ("Failed to read manifest: " ++ err.text W))), st1)
    | (none, st1) =>
      match W.LookupProfile fl.profileFlag st1.pkg with
      | none =>
        (.returned (some (.errorf ("profile " ++ Quote W fl.profileFlag ++ " is not installed"))),
          st1)
      | some profile =>
        match W.FindTarget profile.Targets fl.targetFlag with
        | none =>
          (.returned (some (.errorf ("target " ++ W.targetQ fl.targetFlag ++
            " is not installed for profile " ++ Quote W fl.profileFlag))), st1)
        | some target =>
          let vars := SliceToMap target.Vars
          let buf := if args.length = 0 then envAll W vars target
            else envRequested W vars target args
          (.returned none, st1.print (Fprintf0 W (TrimSuffix buf " " ++ "\n")))

/-! ## Vocabulary of the properties -/

/-- The line `logResult` writes: `action: manager tag=arch-os@version: `, then
`success` or the text of the error, then a newline. -/
def resultLine (W : World σ μ) (action : String) (mgr : μ) (target : Target)
    (err : Option Error) : String :=
  action ++ ": " ++ W.Name mgr ++ " " ++ target.Tag ++ "=" ++ target.Arch ++ "-" ++
    target.OS ++ "@" ++ target.Version ++ ": " ++
    (match err with
     | none => "success"
     | some e => e.text W) ++ "\n"

/-- The text made of the given pieces, one after the other. -/
def concatText (pieces : List String) : String :=
  pieces.foldr (fun s r => s ++ r) ""

/-- A Manager transition that failed: an `Install` or an `Uninstall` that
returned an error, or an `Update` that returned an error other than
`ErrNoIncrementalUpdate`, which only asks for the reinstall. -/
def Event.failed (ev : Event μ) : Bool :=
  match ev.call, ev.result with
  | .Install _ _, some _ => true
  | .Uninstall _ _, some _ => true
  | .Update _ _, some e => e != .ErrNoIncrementalUpdate
  | _, _ => false

/-- A call to `profiles.Write`. -/
def Event.isWrite (ev : Event μ) : Bool :=
  match ev.call with
  | .Write _ => true
  | _ => false

/-- The calls `evs` made by a step or by a run of `applyCommand` fit what it
returned (`out`): none of them is a manifest write; if nil was returned no
transition failed; if `err` was returned the last call is a failed transition
that returned `err`, and no transition before it failed. -/
def Settled (out : Option Error) (evs : List (Event μ)) : Prop :=
  (∀ x ∈ evs, x.isWrite = false) ∧
  match out with
  | none => ∀ x ∈ evs, x.failed = false
  | some err => ∃ pre ev, evs = pre ++ [ev] ∧ (∀ x ∈ pre, x.failed = false) ∧
      ev.failed = true ∧ ev.result = some err

/-- The `error` a command returned, nil when it panicked. -/
def Outcome.error : Outcome → Option Error
  | .returned err => err
  | .panicked => none

/-- The trace `applyCommand` leaves for `runInstall` on a list of Managers
whose `Install` all returned nil: `SetRoot` and then `Install` on each, in
order, every one recorded with the result nil. -/
def installEvents (rootDir : String) (target : Target) (mgrs : List μ) : List (Event μ) :=
  mgrs.flatMap (fun m => [⟨.SetRoot m rootDir, none⟩, ⟨.Install m target, none⟩])

/-- The arguments of `runInstall` that are not skipped, given the state of
package `profiles` after the manifest was read: all of them under the force
flag, and otherwise those for which `HasTarget` is false. -/
def namesToInstall (W : World σ μ) (fl : Flags) (args : List String) (pkg : σ) : List String :=
  args.filter (fun n => fl.forceFlag || !W.HasTarget n fl.targetFlag pkg)

/-! ## A small world for examples -/

/-- Modelled from the spec: `profiles.FindTarget`, which is outside the
sources at hand.  A requested target with an empty version matches the first
stored target of the same architecture and operating system; with a version,
the version must be equal as well. -/
def exampleFindTarget (targets : List Target) (req : Target) : Option Target :=
  targets.find? (fun t =>
    t.Arch == req.Arch && t.OS == req.OS && (req.Version == "" || t.Version == req.Version))

/-- Adds a target to the named profile of a manifest, creating the profile
when it is not there. -/
def exampleAddTarget (name : String) (t : Target) (m : List Profile) : List Profile :=
  if m.any (fun p => p.Name == name) then
    m.map (fun p => if p.Name == name then { p with Targets := p.Targets ++ [t] } else p)
  else m ++ [⟨name, "/jiri/profiles", [t]⟩]

/-- Removes the targets matching `t` from the named profile of a manifest. -/
def exampleRemoveTarget (name : String) (t : Target) (m : List Profile) : List Profile :=
  m.map (fun p =>
    if p.Name == name then
      { p with Targets := p.Targets.filter (fun x => !(x.Arch == t.Arch && x.OS == t.OS)) }
    else p)

/-- The state of the example world: the manifest held in memory by package
`profiles` and the manifest file. -/
structure ExampleStore where
  memory : List Profile
  file : List Profile
deriving DecidableEq, Repr

/-- A world with four Managers, named `go`, `java`, `nacl` and `syncbase`.
Installing `java` fails, `nacl` has no incremental update, and uninstalling
`syncbase` fails; a successful `Install` or `Uninstall` adds the target to, or
removes it from, the manifest in memory.  `Read` loads the manifest file into
memory and `Write` stores the manifest in memory into the file; both succeed.
Text is formatted as Go does for plain strings. -/
def exampleWorld : World ExampleStore String where
  LookupManager n := if ["go", "java", "nacl", "syncbase"].contains n then some n else none
  LookupProfile n s := s.memory.find? (fun p => p.Name == n)
  HasTarget n t s :=
    match s.memory.find? (fun p => p.Name == n) with
    | some p => (exampleFindTarget p.Targets t).isSome
    | none => false
  FindTarget := exampleFindTarget
  ValidateRequestedProfiles names _ :=
    if names.all (fun n => ["go", "java", "nacl", "syncbase"].contains n) then none
    else some (.errorf "not a supported profile")
  Read _ s := (none, { s with memory := s.file })
  Write _ s := (none, { s with file := s.memory })
  Name mgr := mgr
  SetRoot _ _ s := s
  Install mgr t s :=
    if mgr == "java" then (some (.errorf "install failed"), s)
    else (none, { s with memory := exampleAddTarget mgr t s.memory })
  Update mgr _ s :=
    if mgr == "nacl" then (some .ErrNoIncrementalUpdate, s) else (none, s)
  Uninstall mgr t s :=
    if mgr == "syncbase" then (some (.errorf "uninstall failed"), s)
    else (none, { s with memory := exampleRemoveTarget mgr t s.memory })
  noIncrementalUpdateText := "incremental update is not supported"
  targetV t := t.Tag ++ "=" ++ t.Arch ++ "-" ++ t.OS ++ "@" ++ t.Version
  targetQ t := "\"" ++ t.Tag ++ "=" ++ t.Arch ++ "-" ++ t.OS ++ "@" ++ t.Version ++ "\""
  quoteEscaped s := s
  formatVerbs s := s
  rangeVars l := l
  rangePseudo l := l

/-- The target `amd64-linux`, version `1.5`, tagged `native`. -/
def exampleTarget : Target :=
  ⟨"native", "amd64", "linux", "1.5", "/jiri/profiles/go", [], false⟩

/-- Flags of a plain invocation on `exampleTarget`. -/
def exampleFlags : Flags :=
  ⟨exampleTarget, "/jiri/.jiri_manifest", "", "/jiri", false, false⟩

/-- Flags of `uninstall --all --target=amd64-linux`. -/
def exampleConflictFlags : Flags :=
  ⟨{ exampleTarget with IsSet := true }, "/jiri/.jiri_manifest", "", "/jiri", false, true⟩

/-- Flags of `uninstall --all --force`, with no target given. -/
def exampleForceAllFlags : Flags :=
  ⟨exampleTarget, "/jiri/.jiri_manifest", "", "/jiri", true, true⟩

/-- The target `amd64-linux` of version `1.0`, installed in `/x`, with the
given declared variables. -/
def exampleEnvTarget (vars : List String) : Target :=
  ⟨"native", "amd64", "linux", "1.0", "/x", vars, false⟩

/-- Flags of `env --profile=go` on `amd64-linux`. -/
def exampleEnvFlags : Flags :=
  ⟨exampleEnvTarget [], "/jiri/.jiri_manifest", "go", "/jiri", false, false⟩

/-- A manifest whose only profile is `go`, with one target that declares the
given variables. -/
def exampleEnvManifest (vars : List String) : List Profile :=
  [⟨"go", "/jiri/profiles", [exampleEnvTarget vars]⟩]

/-- The state a command starts in when the manifest file holds `m`: nothing
in memory yet, an empty trace and nothing printed. -/
def exampleState (m : List Profile) : State ExampleStore String :=
  ⟨⟨[], m⟩, [], "", ""⟩

/-! # Properties -/

/-- The function `logResult` appends one `resultLine` to the standard output and changes
nothing else. -/
theorem logResult_eq (W : World σ μ) (action : String) (mgr : μ) (target : Target)
    (err : Option Error) (st : State σ μ) :
    logResult W action mgr target err st = st.print (resultLine W action mgr target err) := by
  cases err <;> simp [logResult, resultLine, State.print, String.append_assoc]

/-! ## `applyCommand`: order and fail-fast -/

/-- Running `applyCommand` on `xs ++ ys` is running it on `xs` and, when that
returned nil, on `ys` from the state reached. -/
theorem applyCommand_append (W : World σ μ) (rootDir : String) (fn : Step σ μ)
    (xs ys : List String) (target : Target) (st : State σ μ) :
    applyCommand W rootDir fn (xs ++ ys) target st =
      match applyCommand W rootDir fn xs target st with
      | (.returned none, s1) => applyCommand W rootDir fn ys target s1
      | r => r := by
  induction xs generalizing st with
  | nil => simp [applyCommand]
  | cons n xs ih =>
    simp only [List.cons_append, applyCommand]
    cases hm : W.LookupManager n with
    | none => simp
    | some mgr =>
      simp only []
      rcases hf : fn mgr target (callSetRoot W mgr rootDir st) with ⟨e, s2⟩
      cases e with
      | none => simp only []; exact ih s2
      | some err => simp

/-- C3: `applyCommand` applies `fn` to the names in the supplied order, once
each.  On no name it returns nil at once.  Once the names before a position
have all succeeded (`hpre`), `fn` is applied to the Manager of the name at that
position, after `SetRoot`, in the state `s1` they left: if it succeeds the
command goes on with the later names from the state `fn` left, so that it
returns nil when there is none; if it fails with `err`, the command returns
exactly `err` in the state `fn` left, whatever names come after, none of which
is looked at. -/
theorem applyCommand_in_order_fail_fast (W : World σ μ) (rootDir : String) (fn : Step σ μ)
    (target : Target) (st s1 : State σ μ) (pre : List String) (n : String) (mgr : μ)
    (hpre : applyCommand W rootDir fn pre target st = (.returned none, s1))
    (hmgr : W.LookupManager n = some mgr) :
    (∀ s, applyCommand W rootDir fn [] target s = (.returned none, s)) ∧
    (∀ s2, fn mgr target (callSetRoot W mgr rootDir s1) = (none, s2) →
      ∀ post, applyCommand W rootDir fn (pre ++ n :: post) target st =
        applyCommand W rootDir fn post target s2) ∧
    (∀ err s2, fn mgr target (callSetRoot W mgr rootDir s1) = (some err, s2) →
      ∀ post, applyCommand W rootDir fn (pre ++ n :: post) target st =
        (.returned (some err), s2)) := by
  refine ⟨fun _ => rfl, ?_, ?_⟩
  · intro s2 hfn post
    rw [applyCommand_append, hpre]
    simp only [applyCommand, hmgr, hfn]
  · intro err s2 hfn post
    rw [applyCommand_append, hpre]
    simp only [applyCommand, hmgr, hfn]

/-- The theorem `applyCommand_in_order_fail_fast` at the names `go`, `java`,
`nacl` of the example world, where installing `java` fails. -/
theorem applyCommand_in_order_fail_fast_witness :
    applyCommand exampleWorld "/jiri" (installStep exampleWorld) ["go"] exampleTarget
        (exampleState []) =
      (.returned none, (applyCommand exampleWorld "/jiri" (installStep exampleWorld) ["go"]
        exampleTarget (exampleState [])).2) ∧
    exampleWorld.LookupManager "java" = some "java" ∧
    (applyCommand exampleWorld "/jiri" (installStep exampleWorld) ["go", "java", "nacl"]
        exampleTarget (exampleState [])).1 = .returned (some (.errorf "install failed")) :=
  ⟨rfl, rfl, congrArg Prod.fst
    ((applyCommand_in_order_fail_fast exampleWorld "/jiri" (installStep exampleWorld)
      exampleTarget (exampleState []) _ ["go"] "java" "java" rfl rfl).2.2
      (.errorf "install failed") _ rfl ["nacl"])⟩

/-! ## `runUpdate`: the step on one profile -/

/-- C2: the step of `runUpdate` on one Manager and target calls `Update` once.
If `Update` returned `ErrNoIncrementalUpdate`, or the force flag is set and
`Update` returned nil, the step then calls `Uninstall` once and, only if that
returned nil, `Install` once, each on the state the call before it left; it
returns the error of `Uninstall` when that failed and the result of `Install`
otherwise, which is nil when both succeeded.  In every other case the step
makes no further call and returns what `Update` returned. -/
theorem updateStep_update_then_reinstall (W : World σ μ) (fl : Flags) (mgr : μ)
    (target : Target) (st : State σ μ) :
    if (W.Update mgr target st.pkg).1 = some .ErrNoIncrementalUpdate ∨
        (fl.forceFlag = true ∧ (W.Update mgr target st.pkg).1 = none) then
      if (W.Uninstall mgr target (W.Update mgr target st.pkg).2).1 = none then
        (updateStep W fl mgr target st).2.calls = st.calls ++
          [⟨.Update mgr target, (W.Update mgr target st.pkg).1⟩,
           ⟨.Uninstall mgr target, none⟩,
           ⟨.Install mgr target, (W.Install mgr target
              (W.Uninstall mgr target (W.Update mgr target st.pkg).2).2).1⟩] ∧
        (updateStep W fl mgr target st).1 = (W.Install mgr target
              (W.Uninstall mgr target (W.Update mgr target st.pkg).2).2).1
      else
        (updateStep W fl mgr target st).2.calls = st.calls ++
          [⟨.Update mgr target, (W.Update mgr target st.pkg).1⟩,
           ⟨.Uninstall mgr target,
              (W.Uninstall mgr target (W.Update mgr target st.pkg).2).1⟩] ∧
        (updateStep W fl mgr target st).1 =
          (W.Uninstall mgr target (W.Update mgr target st.pkg).2).1
    else
      (updateStep W fl mgr target st).2.calls =
        st.calls ++ [⟨.Update mgr target, (W.Update mgr target st.pkg).1⟩] ∧
      (updateStep W fl mgr target st).1 = (W.Update mgr target st.pkg).1 := by
  rcases hu : W.Update mgr target st.pkg with ⟨ue, us⟩
  rcases hn : W.Uninstall mgr target us with ⟨ne, ns⟩
  rcases hi : W.Install mgr target ns with ⟨ie, is⟩
  cases hf : fl.forceFlag <;> cases ue <;> cases ne <;> cases ie <;>
    simp [updateStep, callUpdate, callUninstall, callInstall, logResult, State.record,
      State.print, hu, hn, hi, hf] <;>
    split <;> simp_all

/-! ## `runUninstall` -/

/-- The function `initCommand` makes no call but, at most, the one to
`profiles.Read`. -/
theorem initCommand_calls (W : World σ μ) (fl : Flags) (args : List String) (st : State σ μ) :
    (initCommand W fl args st).2.calls = st.calls ∨
    (initCommand W fl args st).2.calls =
      st.calls ++ [⟨.Read fl.manifestFlag, (W.Read fl.manifestFlag st.pkg).1⟩] := by
  unfold initCommand
  split
  · exact Or.inl rfl
  · split
    · exact Or.inl rfl
    · rename_i h
      rcases hr : W.Read fl.manifestFlag st.pkg with ⟨e, s⟩
      cases e <;> simp [callRead, State.record, State.printErr, hr]

/-- C6: when `--all` is set and a target is set explicitly, `runUninstall`
returns an error, and the only call it can have made is the manifest read of
`initCommand`: no `SetRoot`, `Install`, `Update` or `Uninstall` of any Manager,
and no `profiles.Write`. -/
theorem runUninstall_all_with_target_rejected (W : World σ μ) (fl : Flags)
    (args : List String) (st : State σ μ)
    (hall : fl.allFlag = true) (hset : fl.targetFlag.IsSet = true) :
    (∃ err, (runUninstall W fl args st).1 = .returned (some err)) ∧
    ((runUninstall W fl args st).2.calls = st.calls ∨
      (runUninstall W fl args st).2.calls =
        st.calls ++ [⟨.Read fl.manifestFlag, (W.Read fl.manifestFlag st.pkg).1⟩]) := by
  have hc := initCommand_calls W fl args st
  unfold runUninstall
  rcases hi : initCommand W fl args st with ⟨e, s1⟩
  rw [hi] at hc
  cases e with
  | some err => exact ⟨⟨err, rfl⟩, hc⟩
  | none => simp only [hall, hset, Bool.and_self, if_true]; exact ⟨⟨_, rfl⟩, hc⟩

/-- The theorem `runUninstall_all_with_target_rejected` on the profile `go` of
the example world. -/
theorem runUninstall_all_with_target_rejected_witness :
    exampleConflictFlags.allFlag = true ∧
    exampleConflictFlags.targetFlag.IsSet = true ∧
    (∃ err, (runUninstall exampleWorld exampleConflictFlags ["go"]
        (exampleState [⟨"go", "/jiri/profiles", [exampleTarget]⟩])).1 =
        .returned (some err)) :=
  ⟨rfl, rfl, (runUninstall_all_with_target_rejected exampleWorld exampleConflictFlags
    ["go"] (exampleState [⟨"go", "/jiri/profiles", [exampleTarget]⟩]) rfl rfl).1⟩

/-- C7, as stated, fails: with the force flag and `--all` both set and no
explicit target, `runUninstall` returns nil and has uninstalled the stored
target of `go` and written the manifest. -/
theorem runUninstall_force_all_uninstalls :
    exampleForceAllFlags.forceFlag = true ∧ exampleForceAllFlags.allFlag = true ∧
    (runUninstall exampleWorld exampleForceAllFlags ["go"]
        (exampleState [⟨"go", "/jiri/profiles", [exampleTarget]⟩])).2.pkg.memory =
      [⟨"go", "/jiri/profiles", []⟩] ∧
    (runUninstall exampleWorld exampleForceAllFlags ["go"]
        (exampleState [⟨"go", "/jiri/profiles", [exampleTarget]⟩])).1 =
      .returned none ∧
    (runUninstall exampleWorld exampleForceAllFlags ["go"]
        (exampleState [⟨"go", "/jiri/profiles", [exampleTarget]⟩])).2.calls =
      [⟨.Read "/jiri/.jiri_manifest", none⟩, ⟨.SetRoot "go" "/jiri", none⟩,
       ⟨.Uninstall "go" exampleTarget, none⟩, ⟨.Write "/jiri/.jiri_manifest", none⟩] := by
  decide

/-- The loop of `uninstall --all` reads no flag but the root directory. -/
theorem uninstallAll_rootDir (W : World σ μ) (fl fl2 : Flags) (h : fl.rootDir = fl2.rootDir)
    (args : List String) (st : State σ μ) :
    uninstallAll W fl args st = uninstallAll W fl2 args st := by
  induction args generalizing st with
  | nil => rfl
  | cons name args ih =>
    simp only [uninstallAll, h]
    cases W.LookupProfile name st.pkg <;> cases W.LookupManager name <;> simp only [ih]

/-- The function `runUninstall` does not read the force flag: whatever the
other flags, the names and the state, the command ends in the same way, with
the same calls and the same output, with the force flag set or not. -/
theorem runUninstall_ignores_force (W : World σ μ) (fl : Flags) (args : List String)
    (st : State σ μ) (force : Bool) :
    runUninstall W { fl with forceFlag := force } args st = runUninstall W fl args st := by
  simp only [runUninstall, initCommand,
    uninstallAll_rootDir W { fl with forceFlag := force } fl rfl]

/-- The trace of the loop of `uninstall --all` over the targets of one profile:
either it returns nil and `Uninstall` was called on every target, in order,
each returning nil; or it returns the error of the first `Uninstall` that
failed, which is the last call, after those on the targets before it. -/
theorem uninstallTargets_events (W : World σ μ) (mgr : μ) (targets : List Target)
    (st : State σ μ) :
    ((uninstallTargets W mgr targets st).1 = none ∧
      (uninstallTargets W mgr targets st).2.calls =
        st.calls ++ targets.map (fun t => ⟨.Uninstall mgr t, none⟩)) ∨
    (∃ done t rest err, targets = done ++ t :: rest ∧
      (uninstallTargets W mgr targets st).1 = some err ∧
      (uninstallTargets W mgr targets st).2.calls =
        st.calls ++ done.map (fun t => ⟨.Uninstall mgr t, none⟩) ++
          [⟨.Uninstall mgr t, some err⟩]) := by
  induction targets generalizing st with
  | nil => left; simp [uninstallTargets]
  | cons t ts ih =>
    rcases hu : W.Uninstall mgr t st.pkg with ⟨e, s⟩
    cases e with
    | some err =>
      right
      refine ⟨[], t, ts, err, rfl, ?_, ?_⟩ <;>
        simp [uninstallTargets, callUninstall, hu, logResult_eq, State.print, State.record]
    | none =>
      have hstep : uninstallTargets W mgr (t :: ts) st =
          uninstallTargets W mgr ts
            (logResult W "Uninstalled" mgr t none (callUninstall W mgr t st).2) := by
        simp [uninstallTargets, callUninstall, hu]
      have hcalls : (logResult W "Uninstalled" mgr t none (callUninstall W mgr t st).2).calls =
          st.calls ++ [⟨.Uninstall mgr t, none⟩] := by
        simp [callUninstall, hu, logResult_eq, State.print, State.record]
      rw [hstep]
      rcases ih (logResult W "Uninstalled" mgr t none (callUninstall W mgr t st).2) with
        ⟨h1, h2⟩ | ⟨done, x, rest, err, hd, h1, h2⟩
      · left
        refine ⟨h1, ?_⟩
        rw [h2, hcalls]; simp
      · right
        refine ⟨t :: done, x, rest, err, by rw [hd]; rfl, h1, ?_⟩
        rw [h2, hcalls]; simp

/-- Running the loop of `uninstall --all` on `xs ++ ys` is running it on `xs`
and, when that returned nil, on `ys` from the state reached. -/
theorem uninstallAll_append (W : World σ μ) (fl : Flags) (xs ys : List String)
    (st : State σ μ) :
    uninstallAll W fl (xs ++ ys) st =
      match uninstallAll W fl xs st with
      | (none, s1) => uninstallAll W fl ys s1
      | r => r := by
  induction xs generalizing st with
  | nil => simp [uninstallAll]
  | cons n xs ih =>
    simp only [List.cons_append, uninstallAll]
    cases hp : W.LookupProfile n st.pkg with
    | none => simp only []; exact ih st
    | some profile =>
      cases hm : W.LookupManager n with
      | none => simp only []; exact ih st
      | some mgr =>
        simp only []
        rcases hf : uninstallTargets W mgr profile.Targets (callSetRoot W mgr fl.rootDir st)
          with ⟨e, s2⟩
        cases e with
        | none => simp only []; exact ih s2
        | some err => simp

/-- C7, amended: take an invocation of `runUninstall` with `--all` set, the
force flag being set or not, for which `initCommand` has succeeded, leaving
the state `st1`.  The force flag changes nothing: the command is the same with
any value of it.  If a target is set explicitly, the command is rejected with
the error `don't specify a target in conjunction with --all`, in the state
`st1`, having uninstalled nothing.  If no target is set, it is not rejected: it
runs the loop over the names; when the loop returns an error the command
returns it in the state the loop left, without writing the manifest, and when
the loop returns nil the command calls `profiles.Write` and returns its
result.  The loop goes through the names in order and stops at the first
error; a name without a profile in the manifest or without a Manager is passed
over; for any other name it calls `SetRoot` and then `Uninstall` on the stored
targets of the profile, in order, either on all of them, each returning nil, or
up to and including the first that returns an error, which the loop
returns. -/
theorem runUninstall_force_all (W : World σ μ) (fl : Flags) (args : List String)
    (st st1 : State σ μ) (hall : fl.allFlag = true)
    (hinit : initCommand W fl args st = (none, st1)) :
    (∀ force, runUninstall W { fl with forceFlag := force } args st =
      runUninstall W fl args st) ∧
    (fl.targetFlag.IsSet = true →
      runUninstall W fl args st =
        (.returned (some (.errorf "don't specify a target in conjunction with --all")), st1)) ∧
    (fl.targetFlag.IsSet = false →
      (∀ s2, uninstallAll W fl args st1 = (none, s2) →
        (runUninstall W fl args st).1 = .returned (W.Write fl.manifestFlag s2.pkg).1 ∧
        (runUninstall W fl args st).2.calls =
          s2.calls ++ [⟨.Write fl.manifestFlag, (W.Write fl.manifestFlag s2.pkg).1⟩] ∧
        (runUninstall W fl args st).2.pkg = (W.Write fl.manifestFlag s2.pkg).2) ∧
      (∀ err s2, uninstallAll W fl args st1 = (some err, s2) →
        runUninstall W fl args st = (.returned (some err), s2))) ∧
    (∀ xs ys s, uninstallAll W fl (xs ++ ys) s =
      match uninstallAll W fl xs s with
      | (none, s1) => uninstallAll W fl ys s1
      | r => r) ∧
    (∀ s, uninstallAll W fl [] s = (none, s)) ∧
    (∀ name s, W.LookupProfile name s.pkg = none ∨ W.LookupManager name = none →
      uninstallAll W fl [name] s = (none, s)) ∧
    (∀ name s profile mgr, W.LookupProfile name s.pkg = some profile →
      W.LookupManager name = some mgr →
      ((uninstallAll W fl [name] s).1 = none ∧
        (uninstallAll W fl [name] s).2.calls =
          s.calls ++ ⟨.SetRoot mgr fl.rootDir, none⟩ ::
            profile.Targets.map (fun t => ⟨.Uninstall mgr t, none⟩)) ∨
      (∃ done t rest err, profile.Targets = done ++ t :: rest ∧
        (uninstallAll W fl [name] s).1 = some err ∧
        (uninstallAll W fl [name] s).2.calls =
          s.calls ++ ⟨.SetRoot mgr fl.rootDir, none⟩ ::
            done.map (fun t => ⟨.Uninstall mgr t, none⟩) ++
            [⟨.Uninstall mgr t, some err⟩])) := by
  refine ⟨runUninstall_ignores_force W fl args st, ?_, ?_, ?_, fun _ => rfl, ?_, ?_⟩
  · intro hset
    simp [runUninstall, hinit, hall, hset]
  · intro hset
    refine ⟨fun s2 h => ?_, fun err s2 h => ?_⟩
    · simp [runUninstall, hinit, hall, hset, h, callWrite, State.record]
    · simp [runUninstall, hinit, hall, hset, h]
  · exact fun xs ys s => uninstallAll_append W fl xs ys s
  · intro name s h
    rcases h with h | h
    · simp [uninstallAll, h]
    · cases hp : W.LookupProfile name s.pkg <;> simp [uninstallAll, h]
  · intro name s profile mgr hp hm
    have hs : uninstallAll W fl [name] s =
        uninstallTargets W mgr profile.Targets (callSetRoot W mgr fl.rootDir s) := by
      simp only [uninstallAll, hp, hm]
      rcases uninstallTargets W mgr profile.Targets (callSetRoot W mgr fl.rootDir s) with ⟨e, s2⟩
      cases e <;> rfl
    rw [hs]
    rcases uninstallTargets_events W mgr profile.Targets (callSetRoot W mgr fl.rootDir s) with
      ⟨h1, h2⟩ | ⟨done, t, rest, err, hd, h1, h2⟩
    · left
      refine ⟨h1, ?_⟩
      rw [h2]; simp [callSetRoot, State.record]
    · right
      refine ⟨done, t, rest, err, hd, h1, ?_⟩
      rw [h2]; simp [callSetRoot, State.record]

/-- The theorem `runUninstall_force_all` on `uninstall --all --force go` in the
example world, where the stored target of `go` is uninstalled. -/
theorem runUninstall_force_all_witness :
    exampleForceAllFlags.forceFlag = true ∧ exampleForceAllFlags.allFlag = true ∧
    initCommand exampleWorld exampleForceAllFlags ["go"]
        (exampleState [⟨"go", "/jiri/profiles", [exampleTarget]⟩]) =
      (none, (initCommand exampleWorld exampleForceAllFlags ["go"]
        (exampleState [⟨"go", "/jiri/profiles", [exampleTarget]⟩])).2) ∧
    (runUninstall exampleWorld exampleForceAllFlags ["go"]
        (exampleState [⟨"go", "/jiri/profiles", [exampleTarget]⟩])).1 = .returned none :=
  ⟨rfl, rfl, rfl,
    (((runUninstall_force_all exampleWorld exampleForceAllFlags ["go"]
      (exampleState [⟨"go", "/jiri/profiles", [exampleTarget]⟩]) _ rfl rfl).2.2.1 rfl).1
      _ rfl).1⟩

/-- C5, on the code: without `--all`, `Uninstall` of `syncbase` returns an
error, and `runUninstall` still writes the manifest and returns nil. -/
theorem runUninstall_drops_step_error :
    exampleFlags.allFlag = false ∧
    (runUninstall exampleWorld exampleFlags ["syncbase"]
        (exampleState [⟨"syncbase", "/jiri/profiles", [exampleTarget]⟩])).2.stdout =
      "Uninstalling: syncbase native=amd64-linux@1.5: uninstall failed\n" ∧
    (runUninstall exampleWorld exampleFlags ["syncbase"]
        (exampleState [⟨"syncbase", "/jiri/profiles", [exampleTarget]⟩])).2.calls =
      [⟨.Read "/jiri/.jiri_manifest", none⟩, ⟨.SetRoot "syncbase" "/jiri", none⟩,
       ⟨.Uninstall "syncbase" exampleTarget, some (.errorf "uninstall failed")⟩,
       ⟨.Write "/jiri/.jiri_manifest", none⟩] ∧
    (runUninstall exampleWorld exampleFlags ["syncbase"]
        (exampleState [⟨"syncbase", "/jiri/profiles", [exampleTarget]⟩])).1 =
      .returned none := by
  decide

/-! ## The result lines -/

/-- The loop of `uninstall --all` over the targets of a profile writes one
result line for each `Uninstall` call it makes, in the order of the calls. -/
theorem uninstallTargets_lines (W : World σ μ) (mgr : μ) (targets : List Target)
    (st : State σ μ) :
    ∃ results : List (Target × Option Error),
      (uninstallTargets W mgr targets st).2.calls =
        st.calls ++ results.map (fun r => ⟨.Uninstall mgr r.1, r.2⟩) ∧
      (uninstallTargets W mgr targets st).2.stdout =
        st.stdout ++ concatText (results.map (fun r => resultLine W "Uninstalled" mgr r.1 r.2)) := by
  induction targets generalizing st with
  | nil => exact ⟨[], by simp [uninstallTargets], by simp [uninstallTargets, concatText]⟩
  | cons t ts ih =>
    rcases hu : W.Uninstall mgr t st.pkg with ⟨e, s⟩
    cases e with
    | some err =>
      refine ⟨[(t, some err)], ?_, ?_⟩ <;>
        simp [uninstallTargets, callUninstall, hu, logResult_eq, State.print, State.record,
          concatText]
    | none =>
      obtain ⟨rs, h1, h2⟩ := ih ((logResult W "Uninstalled" mgr t none
        (callUninstall W mgr t st).2))
      refine ⟨(t, none) :: rs, ?_, ?_⟩
      · simp only [uninstallTargets, callUninstall, hu] at h1 ⊢
        rw [h1]; simp [logResult_eq, State.print, State.record]
      · simp only [uninstallTargets, callUninstall, hu] at h2 ⊢
        rw [h2]; simp [logResult_eq, State.print, State.record, String.join, String.append_assoc]
        rfl


/-- C10, amended: `logResult` writes the action, a colon, the name of the
Manager, the target as `tag=arch-os@version`, a colon, and then `success` for a
nil error and the text of the error otherwise, ended by a newline.  Each step
on one profile and target adds exactly one such line to the output: the step
of `runInstall` the line `Installed` with the result of its `Install` call;
the step of `runUninstall` the line `Uninstalling` with the result of its
`Uninstall` call; the step of `runUpdate` one line for the whole of its
`Update`, `Uninstall` and `Install` calls, which is `Updated` with the result
of `Update` when there is no reinstall, and on the reinstall path
`Uninstalled` with the error of `Uninstall`, or `Installed` with the error of
`Install`, or `Updated` with `success` when both returned nil; and the loop of
`uninstall --all` the line `Uninstalled` for each `Uninstall` call, in
order. -/
theorem logResult_one_line_per_step (W : World σ μ) (fl : Flags) (mgr : μ) (target : Target)
    (st : State σ μ) :
    (∀ action err, (logResult W action mgr target err st).stdout =
      st.stdout ++ (action ++ ": " ++ W.Name mgr ++ " " ++ target.Tag ++ "=" ++ target.Arch ++
        "-" ++ target.OS ++ "@" ++ target.Version ++ ": " ++
        (match err with
         | none => "success"
         | some e => e.text W) ++ "\n")) ∧
    (installStep W mgr target st).2.stdout =
      st.stdout ++ resultLine W "Installed" mgr target (W.Install mgr target st.pkg).1 ∧
    (uninstallStep W mgr target st).2.stdout =
      st.stdout ++ resultLine W "Uninstalling" mgr target (W.Uninstall mgr target st.pkg).1 ∧
    (updateStep W fl mgr target st).2.stdout = st.stdout ++
      (if (W.Update mgr target st.pkg).1 = some .ErrNoIncrementalUpdate ∨
          (fl.forceFlag = true ∧ (W.Update mgr target st.pkg).1 = none) then
        if (W.Uninstall mgr target (W.Update mgr target st.pkg).2).1 = none then
          if (W.Install mgr target
              (W.Uninstall mgr target (W.Update mgr target st.pkg).2).2).1 = none then
            resultLine W "Updated" mgr target none
          else
            resultLine W "Installed" mgr target (W.Install mgr target
              (W.Uninstall mgr target (W.Update mgr target st.pkg).2).2).1
        else
          resultLine W "Uninstalled" mgr target
            (W.Uninstall mgr target (W.Update mgr target st.pkg).2).1
      else resultLine W "Updated" mgr target (W.Update mgr target st.pkg).1) ∧
    (∀ targets, ∃ results : List (Target × Option Error),
      (uninstallTargets W mgr targets st).2.calls =
        st.calls ++ results.map (fun r => ⟨.Uninstall mgr r.1, r.2⟩) ∧
      (uninstallTargets W mgr targets st).2.stdout =
        st.stdout ++
          concatText (results.map (fun r => resultLine W "Uninstalled" mgr r.1 r.2))) := by
  refine ⟨fun action err => ?_, ?_, ?_, ?_, fun targets => uninstallTargets_lines W mgr targets st⟩
  · rw [logResult_eq]; rfl
  · simp [installStep, callInstall, logResult_eq, State.print, State.record]
  · simp [uninstallStep, callUninstall, logResult_eq, State.print, State.record]
  · rcases hu : W.Update mgr target st.pkg with ⟨ue, us⟩
    rcases hn : W.Uninstall mgr target us with ⟨ne, ns⟩
    rcases hi : W.Install mgr target ns with ⟨ie, is⟩
    cases hf : fl.forceFlag <;> cases ue <;> cases ne <;> cases ie <;>
      simp [updateStep, callUpdate, callUninstall, callInstall, logResult_eq, State.record,
        State.print, hu, hn, hi, hf] <;>
      split <;> simp_all [State.print]

/-- C10, as stated, fails: on `nacl`, which has no incremental update, the
step of `runUpdate` makes three Manager calls (`Update`, `Uninstall`,
`Install`) and writes one result line; and the line has `=` between the tag
and the architecture, not a blank. -/
theorem updateStep_three_calls_one_line :
    (updateStep exampleWorld exampleFlags "nacl" exampleTarget (exampleState [])).2.calls =
      [⟨.Update "nacl" exampleTarget, some .ErrNoIncrementalUpdate⟩,
       ⟨.Uninstall "nacl" exampleTarget, none⟩, ⟨.Install "nacl" exampleTarget, none⟩] ∧
    (updateStep exampleWorld exampleFlags "nacl" exampleTarget (exampleState [])).2.stdout =
      "Updated: nacl native=amd64-linux@1.5: success\n" ∧
    (logResult exampleWorld "Installed" "go" exampleTarget none (exampleState [])).stdout ≠
      "Installed: go native amd64-linux@1.5: success\n" := by
  decide

/-! ## Failure of a transition in a batch -/

/-- Calls that fit a nil result, followed by calls that fit `out`, fit `out`. -/
theorem settled_append (out : Option Error) (e1 e2 : List (Event μ))
    (h1 : Settled none e1) (h2 : Settled out e2) : Settled out (e1 ++ e2) := by
  obtain ⟨w1, f1⟩ := h1
  obtain ⟨w2, f2⟩ := h2
  refine ⟨fun x hx => ?_, ?_⟩
  · rcases List.mem_append.1 hx with h | h
    · exact w1 x h
    · exact w2 x h
  · cases out with
    | none =>
      intro x hx
      rcases List.mem_append.1 hx with h | h
      · exact f1 x h
      · exact f2 x h
    | some err =>
      obtain ⟨pre, ev, he, hp, hf, hr⟩ := f2
      refine ⟨e1 ++ pre, ev, by rw [he, List.append_assoc], fun x hx => ?_, hf, hr⟩
      rcases List.mem_append.1 hx with h | h
      · exact f1 x h
      · exact hp x h

/-- The one call of the step of `runInstall` fits what the step returns. -/
theorem installStep_settled (W : World σ μ) (mgr : μ) (target : Target) (st : State σ μ) :
    ∃ evs, (installStep W mgr target st).2.calls = st.calls ++ evs ∧
      Settled (installStep W mgr target st).1 evs := by
  refine ⟨[⟨.Install mgr target, (W.Install mgr target st.pkg).1⟩], ?_, ?_⟩
  · simp [installStep, callInstall, logResult_eq, State.print, State.record]
  · cases h : (W.Install mgr target st.pkg).1 with
    | none => simp [installStep, callInstall, Settled, Event.isWrite, Event.failed, h]
    | some err =>
      refine ⟨by simp [Event.isWrite], ?_⟩
      simp only [installStep, callInstall, h]
      exact ⟨[], _, rfl, by simp, rfl, rfl⟩

/-- The calls of the step of `runUpdate` fit what the step returns. -/
theorem updateStep_settled (W : World σ μ) (fl : Flags) (mgr : μ) (target : Target)
    (st : State σ μ) :
    ∃ evs, (updateStep W fl mgr target st).2.calls = st.calls ++ evs ∧
      Settled (updateStep W fl mgr target st).1 evs := by
  rcases hu : W.Update mgr target st.pkg with ⟨ue, us⟩
  rcases hn : W.Uninstall mgr target us with ⟨ne, ns⟩
  rcases hi : W.Install mgr target ns with ⟨ie, is⟩
  by_cases hc : ((fl.forceFlag && ue == none) || ue == some .ErrNoIncrementalUpdate) = true
  · have hq : (⟨.Update mgr target, ue⟩ : Event μ).failed = false := by
      rcases Bool.or_eq_true_iff.1 hc with h | h
      · have : ue = none := by simpa using (Bool.and_eq_true_iff.1 h).2
        simp [Event.failed, this]
      · have : ue = some .ErrNoIncrementalUpdate := by simpa using h
        simp [Event.failed, this]
    cases ne with
    | some err =>
      refine ⟨[⟨.Update mgr target, ue⟩, ⟨.Uninstall mgr target, some err⟩], ?_, ?_⟩
      · simp [updateStep, callUpdate, callUninstall, logResult_eq, State.print,
          State.record, hu, hn, hc]
      · simp only [updateStep, callUpdate, callUninstall, hu, hn, hc, if_true]
        refine ⟨by simp [Event.isWrite], [_], _, rfl, ?_, rfl, rfl⟩
        simpa using hq
    | none =>
      cases ie with
      | some err =>
        refine ⟨[⟨.Update mgr target, ue⟩, ⟨.Uninstall mgr target, none⟩,
          ⟨.Install mgr target, some err⟩], ?_, ?_⟩
        · simp [updateStep, callUpdate, callUninstall, callInstall, logResult_eq,
            State.print, State.record, hu, hn, hi, hc]
        · simp only [updateStep, callUpdate, callUninstall, callInstall, hu, hn, hi, hc,
            if_true, State.record]
          refine ⟨by simp [Event.isWrite], [_, _], _, rfl, ?_, rfl, rfl⟩
          intro x hx
          simp only [List.mem_cons, List.mem_singleton, List.not_mem_nil, or_false] at hx
          rcases hx with rfl | rfl
          · exact hq
          · rfl
      | none =>
        refine ⟨[⟨.Update mgr target, ue⟩, ⟨.Uninstall mgr target, none⟩,
          ⟨.Install mgr target, none⟩], ?_, ?_⟩
        · simp [updateStep, callUpdate, callUninstall, callInstall, logResult_eq,
            State.print, State.record, hu, hn, hi, hc]
        · simp only [updateStep, callUpdate, callUninstall, callInstall, hu, hn, hi, hc,
            if_true, State.record]
          refine ⟨by simp [Event.isWrite], ?_⟩
          intro x hx
          simp only [List.mem_cons, List.mem_singleton, List.not_mem_nil, or_false] at hx
          rcases hx with rfl | rfl | rfl
          · exact hq
          · rfl
          · rfl
  · refine ⟨[⟨.Update mgr target, ue⟩], ?_, ?_⟩
    · simp [updateStep, callUpdate, logResult_eq, State.print, State.record, hu, hc]
    · simp only [updateStep, callUpdate, hu, hc]
      refine ⟨by simp [Event.isWrite], ?_⟩
      cases ue with
      | none => simp [Event.failed]
      | some err =>
        refine ⟨[], _, rfl, by simp, ?_, rfl⟩
        have : err ≠ .ErrNoIncrementalUpdate := by
          intro h; apply hc; simp [h]
        simp [Event.failed, this]

/-- When the calls of every step fit what the step returns, the calls of
`applyCommand` fit what it returns: a step that failed is the last one. -/
theorem applyCommand_settled (W : World σ μ) (rootDir : String) (fn : Step σ μ)
    (hfn : ∀ mgr target st, ∃ evs, (fn mgr target st).2.calls = st.calls ++ evs ∧
      Settled (fn mgr target st).1 evs)
    (names : List String) (target : Target) (st : State σ μ) :
    ∃ evs, (applyCommand W rootDir fn names target st).2.calls = st.calls ++ evs ∧
      Settled (applyCommand W rootDir fn names target st).1.error evs := by
  induction names generalizing st with
  | nil => exact ⟨[], by simp [applyCommand], by simp [applyCommand, Settled, Outcome.error]⟩
  | cons n names ih =>
    simp only [applyCommand]
    cases hm : W.LookupManager n with
    | none => exact ⟨[], by simp, by simp [Settled, Outcome.error]⟩
    | some mgr =>
      simp only []
      obtain ⟨evs, hc, hs⟩ := hfn mgr target (callSetRoot W mgr rootDir st)
      have hroot : Settled none [(⟨.SetRoot mgr rootDir, none⟩ : Event μ)] := by
        simp [Settled, Event.isWrite, Event.failed]
      rcases hf : fn mgr target (callSetRoot W mgr rootDir st) with ⟨e, s2⟩
      rw [hf] at hc hs
      cases e with
      | some err =>
        refine ⟨[⟨.SetRoot mgr rootDir, none⟩] ++ evs, ?_, settled_append _ _ _ hroot hs⟩
        simp only [] at hc
        simp only [hc, callSetRoot, State.record, List.append_assoc]
      | none =>
        obtain ⟨evs2, hc2, hs2⟩ := ih s2
        refine ⟨([⟨.SetRoot mgr rootDir, none⟩] ++ evs) ++ evs2, ?_,
          settled_append _ _ _ (settled_append _ _ _ hroot hs) hs2⟩
        simp only [] at hc
        rw [hc2, hc]
        simp only [callSetRoot, State.record, List.append_assoc]

/-- The loop that collects the names to install, from any accumulator: it
appends the names that are forced or whose target is absent, and it touches
neither the state of the packages nor the trace. -/
theorem skipInstalled_foldl (W : World σ μ) (fl : Flags) (args : List String)
    (acc : List String × State σ μ) :
    (args.foldl (skipInstalledStep W fl) acc).1 =
      acc.1 ++ args.filter (fun n => fl.forceFlag || !W.HasTarget n fl.targetFlag acc.2.pkg) ∧
    (args.foldl (skipInstalledStep W fl) acc).2.pkg = acc.2.pkg ∧
    (args.foldl (skipInstalledStep W fl) acc).2.calls = acc.2.calls := by
  induction args generalizing acc with
  | nil => simp
  | cons a args ih =>
    obtain ⟨h1, h2, h3⟩ := ih (skipInstalledStep W fl acc a)
    simp only [List.foldl_cons]
    rw [h1, h2, h3]
    cases hf : fl.forceFlag <;> cases hh : W.HasTarget a fl.targetFlag acc.2.pkg <;>
      simp [skipInstalledStep, hf, hh, List.filter_cons, State.print]

/-- The names `runInstall` goes on with are the arguments that are forced or
whose target is absent in the manifest just read, in the order given. -/
theorem skipInstalled_spec (W : World σ μ) (fl : Flags) (args : List String) (st : State σ μ) :
    (skipInstalled W fl args st).1 =
      args.filter (fun n => fl.forceFlag || !W.HasTarget n fl.targetFlag st.pkg) ∧
    (skipInstalled W fl args st).2.pkg = st.pkg ∧
    (skipInstalled W fl args st).2.calls = st.calls := by
  simpa [skipInstalled] using skipInstalled_foldl W fl args ([], st)

/-- From an empty trace, `initCommand` leaves no failed transition and no
manifest write in the trace. -/
theorem initCommand_quiet (W : World σ μ) (fl : Flags) (args : List String) (st : State σ μ)
    (hst : st.calls = []) :
    ∀ x ∈ (initCommand W fl args st).2.calls, x.failed = false ∧ x.isWrite = false := by
  intro x hx
  rcases initCommand_calls W fl args st with h | h
  · rw [h, hst] at hx; cases hx
  · rw [h, hst] at hx
    simp only [List.nil_append, List.mem_singleton] at hx
    subst hx
    exact ⟨rfl, rfl⟩

/-- After calls that fit the result of `applyCommand`, a failed transition is
the last call of the command, its error is what the command returns, and the
manifest has not been written. -/
theorem writeIfNil_fail_stop (W : World σ μ) (fl : Flags) (out : Outcome)
    (s0 s : State σ μ) (evs : List (Event μ))
    (h0 : ∀ x ∈ s0.calls, x.failed = false ∧ x.isWrite = false)
    (hc : s.calls = s0.calls ++ evs) (hs : Settled out.error evs) :
    ∀ ev ∈ (writeIfNil W fl (out, s)).2.calls, ev.failed = true →
      (writeIfNil W fl (out, s)).1 = .returned ev.result ∧
      (writeIfNil W fl (out, s)).2.calls.getLast? = some ev ∧
      ∀ x ∈ (writeIfNil W fl (out, s)).2.calls, x.isWrite = false := by
  intro ev hev hfail
  obtain ⟨hw, hf⟩ := hs
  cases out with
  | panicked =>
    exfalso
    simp only [writeIfNil, hc] at hev
    simp only [Outcome.error] at hf
    rcases List.mem_append.1 hev with h | h
    · simp [(h0 ev h).1] at hfail
    · simp [hf ev h] at hfail
  | returned o =>
    cases o with
    | none =>
      exfalso
      simp only [writeIfNil, callWrite, State.record, hc] at hev
      simp only [Outcome.error] at hf
      rcases List.mem_append.1 hev with h | h
      · rcases List.mem_append.1 h with h | h
        · simp [(h0 ev h).1] at hfail
        · simp [hf ev h] at hfail
      · simp only [List.mem_singleton] at h
        subst h
        simp [Event.failed] at hfail
    | some err =>
      simp only [Outcome.error] at hf
      obtain ⟨pre, last, he, hp, hlf, hlr⟩ := hf
      simp only [writeIfNil, hc, he] at hev ⊢
      have : ev = last := by
        rcases List.mem_append.1 hev with h | h
        · simp [(h0 ev h).1] at hfail
        · rcases List.mem_append.1 h with h | h
          · simp [hp ev h] at hfail
          · simpa using h
      subst this
      refine ⟨by rw [hlr], ?_, ?_⟩
      · rw [← List.append_assoc, List.getLast?_append]; simp
      · intro x hx
        rcases List.mem_append.1 hx with h | h
        · exact (h0 x h).2
        · exact hw x (he ▸ h)

/-- C4, amended: in every `install` and every `update` batch, started from an
empty trace, a Manager transition that fails (an `Install` or `Uninstall` that
returns an error, an `Update` that returns an error other than the
no-incremental-update signal) is the last call the command makes: no later
profile is attempted, the command returns the error of that transition, and
`profiles.Write` is not called, so that the manifest file is written only by a
batch in which no transition failed. -/
theorem batch_failure_stops_without_write (W : World σ μ) (fl : Flags) (args : List String)
    (st : State σ μ) (hst : st.calls = []) :
    (∀ ev ∈ (runInstall W fl args st).2.calls, ev.failed = true →
      (runInstall W fl args st).1 = .returned ev.result ∧
      (runInstall W fl args st).2.calls.getLast? = some ev ∧
      ∀ x ∈ (runInstall W fl args st).2.calls, x.isWrite = false) ∧
    (∀ ev ∈ (runUpdate W fl args st).2.calls, ev.failed = true →
      (runUpdate W fl args st).1 = .returned ev.result ∧
      (runUpdate W fl args st).2.calls.getLast? = some ev ∧
      ∀ x ∈ (runUpdate W fl args st).2.calls, x.isWrite = false) := by
  have hq := initCommand_quiet W fl args st hst
  constructor
  · unfold runInstall
    rcases hi : initCommand W fl args st with ⟨e, st1⟩
    rw [hi] at hq
    cases e with
    | some err =>
      intro ev hev hfail
      simp [(hq ev hev).1] at hfail
    | none =>
      simp only []
      obtain ⟨_, _, hk⟩ := skipInstalled_spec W fl args st1
      obtain ⟨evs, hc, hs⟩ := applyCommand_settled W fl.rootDir (installStep W)
        (installStep_settled W) (skipInstalled W fl args st1).1 fl.targetFlag
        (skipInstalled W fl args st1).2
      rw [hk] at hc
      exact writeIfNil_fail_stop W fl _ st1 _ evs hq hc hs
  · unfold runUpdate
    rcases hi : initCommand W fl args st with ⟨e, st1⟩
    rw [hi] at hq
    cases e with
    | some err =>
      intro ev hev hfail
      simp [(hq ev hev).1] at hfail
    | none =>
      simp only []
      obtain ⟨evs, hc, hs⟩ := applyCommand_settled W fl.rootDir (updateStep W fl)
        (updateStep_settled W fl) args fl.targetFlag st1
      exact writeIfNil_fail_stop W fl _ st1 _ evs hq hc hs

/-- C4, as stated, fails: of the three profiles `go`, `java`, `nacl` the second
fails `Install`; `runInstall` returns that error after the calls shown, the
last of which is the failed `Install`, and `profiles.Write` is not among
them: the new target of `go` is in the manifest in memory and the manifest
file is still empty. -/
theorem runInstall_second_fails_no_write :
    (runInstall exampleWorld exampleFlags ["go", "java", "nacl"] (exampleState [])).1 =
      .returned (some (.errorf "install failed")) ∧
    (runInstall exampleWorld exampleFlags ["go", "java", "nacl"] (exampleState [])).2.calls =
      [⟨.Read "/jiri/.jiri_manifest", none⟩,
       ⟨.SetRoot "go" "/jiri", none⟩, ⟨.Install "go" exampleTarget, none⟩,
       ⟨.SetRoot "java" "/jiri", none⟩,
       ⟨.Install "java" exampleTarget, some (.errorf "install failed")⟩] ∧
    (runInstall exampleWorld exampleFlags ["go", "java", "nacl"] (exampleState [])).2.pkg =
      ⟨[⟨"go", "/jiri/profiles", [exampleTarget]⟩], []⟩ := by
  decide

/-- The theorem `batch_failure_stops_without_write` on the profiles `go`,
`java`, `nacl` of the example world, at the failed `Install` of `java`. -/
theorem batch_failure_stops_without_write_witness :
    (exampleState []).calls = [] ∧
    (⟨.Install "java" exampleTarget, some (.errorf "install failed")⟩ : Event String) ∈
      (runInstall exampleWorld exampleFlags ["go", "java", "nacl"] (exampleState [])).2.calls ∧
    (⟨.Install "java" exampleTarget, some (.errorf "install failed")⟩ :
      Event String).failed = true ∧
    (runInstall exampleWorld exampleFlags ["go", "java", "nacl"] (exampleState [])).1 =
      .returned (some (.errorf "install failed")) ∧
    ∀ x ∈ (runInstall exampleWorld exampleFlags ["go", "java", "nacl"]
        (exampleState [])).2.calls, x.isWrite = false :=
  ⟨rfl, by decide, rfl,
    ((batch_failure_stops_without_write exampleWorld exampleFlags ["go", "java", "nacl"]
      (exampleState []) rfl).1 ⟨.Install "java" exampleTarget, some (.errorf "install failed")⟩
      (by decide) rfl).1,
    ((batch_failure_stops_without_write exampleWorld exampleFlags ["go", "java", "nacl"]
      (exampleState []) rfl).1 ⟨.Install "java" exampleTarget, some (.errorf "install failed")⟩
      (by decide) rfl).2.2⟩

/-! ## `runInstall`: the skip of installed targets -/

/-- The trace on a list of Managers followed by that on another. -/
theorem installEvents_append (rootDir : String) (target : Target) (xs ys : List μ) :
    installEvents rootDir target (xs ++ ys) =
      installEvents rootDir target xs ++ installEvents rootDir target ys := by
  simp [installEvents]

/-- The trace `applyCommand` leaves for `runInstall` on names that all have a
Manager: either it returns nil, every `Install` returned nil and the trace is
`SetRoot` and `Install` on each Manager in order; or it returns the error of
the first `Install` that failed, and the trace is that of the names before it,
whose `Install` all returned nil, and then the `SetRoot` and the failed
`Install` of that name, with nothing after. -/
theorem applyCommand_install_events (W : World σ μ) (rootDir : String) (target : Target)
    (names : List String) (hreg : ∀ n ∈ names, W.LookupManager n ≠ none) (st : State σ μ) :
    ((applyCommand W rootDir (installStep W) names target st).1 = .returned none ∧
      (applyCommand W rootDir (installStep W) names target st).2.calls =
        st.calls ++ installEvents rootDir target (names.filterMap W.LookupManager)) ∨
    (∃ done n rest err mgr, names = done ++ n :: rest ∧ W.LookupManager n = some mgr ∧
      (applyCommand W rootDir (installStep W) names target st).1 = .returned (some err) ∧
      (applyCommand W rootDir (installStep W) names target st).2.calls =
        st.calls ++ installEvents rootDir target (done.filterMap W.LookupManager) ++
          [⟨.SetRoot mgr rootDir, none⟩, ⟨.Install mgr target, some err⟩]) := by
  induction names generalizing st with
  | nil => left; simp [applyCommand, installEvents]
  | cons n names ih =>
    have hn : W.LookupManager n ≠ none := hreg n (List.mem_cons_self _ _)
    have hreg2 : ∀ x ∈ names, W.LookupManager x ≠ none :=
      fun x hx => hreg x (List.mem_cons_of_mem _ hx)
    cases hm : W.LookupManager n with
    | none => exact absurd hm hn
    | some mgr =>
      rcases hI : W.Install mgr target (W.SetRoot mgr rootDir st.pkg) with ⟨e, s⟩
      cases e with
      | some err =>
        right
        refine ⟨[], n, names, err, mgr, rfl, hm, ?_, ?_⟩ <;>
          simp [applyCommand, hm, installStep, callInstall, callSetRoot, State.record, hI,
            logResult_eq, State.print, installEvents]
      | none =>
        have hstep : applyCommand W rootDir (installStep W) (n :: names) target st =
            applyCommand W rootDir (installStep W) names target
              (installStep W mgr target (callSetRoot W mgr rootDir st)).2 := by
          simp [applyCommand, hm, installStep, callInstall, callSetRoot, State.record, hI]
        have hcalls : (installStep W mgr target (callSetRoot W mgr rootDir st)).2.calls =
            st.calls ++ installEvents rootDir target [mgr] := by
          simp [installStep, callInstall, callSetRoot, State.record, logResult_eq,
            State.print, installEvents, hI]
        rw [hstep]
        rcases ih hreg2 (installStep W mgr target (callSetRoot W mgr rootDir st)).2 with
          ⟨h1, h2⟩ | ⟨done, x, rest, err, m2, hd, hx, h1, h2⟩
        · left
          refine ⟨h1, ?_⟩
          rw [h2, hcalls, List.filterMap_cons, hm, List.append_assoc, ← installEvents_append]
          rfl
        · right
          refine ⟨n :: done, x, rest, err, m2, by rw [hd]; rfl, hx, h1, ?_⟩
          rw [h2, hcalls, List.filterMap_cons, hm]
          have hsplit : installEvents rootDir target (mgr :: done.filterMap W.LookupManager) =
              installEvents rootDir target [mgr] ++
                installEvents rootDir target (done.filterMap W.LookupManager) :=
            installEvents_append rootDir target [mgr] _
          rw [hsplit]
          simp only [List.append_assoc]

/-- C1, amended: let `initCommand` have succeeded, leaving the state `st1`,
and let every argument have a Manager.  The names `runInstall` goes on with
are `namesToInstall`: every argument when the force flag is set, and without
it exactly the arguments for which `HasTarget` is false on the manifest just
read, so that no `Install` is called for a name whose target is there.  When
that list is empty the only call made is `profiles.Write`, on the state the
read left, and its result is what the command returns.  In general one of two
things happens.  Either `Install` returned nil for every one of these names:
the trace is `SetRoot` and `Install` on the Manager of each, in the order
given, each recorded with nil, then `profiles.Write`, whose result the command
returns.  Or `Install` returned an error `err` for one of them: the trace is
that of the names before it, whose `Install` all returned nil, then `SetRoot`
and the failed `Install` of that name, and nothing more, neither an `Install`
for a later name nor `profiles.Write`; and the command returns `err`. -/
theorem runInstall_skips_installed (W : World σ μ) (fl : Flags) (args : List String)
    (st st1 : State σ μ) (hinit : initCommand W fl args st = (none, st1))
    (hreg : ∀ n ∈ args, W.LookupManager n ≠ none) :
    (skipInstalled W fl args st1).1 = namesToInstall W fl args st1.pkg ∧
    (fl.forceFlag = true → namesToInstall W fl args st1.pkg = args) ∧
    (fl.forceFlag = false → ∀ n, n ∈ namesToInstall W fl args st1.pkg ↔
      n ∈ args ∧ W.HasTarget n fl.targetFlag st1.pkg = false) ∧
    (namesToInstall W fl args st1.pkg = [] →
      (runInstall W fl args st).1 = .returned (W.Write fl.manifestFlag st1.pkg).1 ∧
      (runInstall W fl args st).2.calls =
        st1.calls ++ [⟨.Write fl.manifestFlag, (W.Write fl.manifestFlag st1.pkg).1⟩] ∧
      (runInstall W fl args st).2.pkg = (W.Write fl.manifestFlag st1.pkg).2) ∧
    ((∃ w, (runInstall W fl args st).1 = .returned w ∧
        (runInstall W fl args st).2.calls =
          st1.calls ++
            installEvents fl.rootDir fl.targetFlag
              ((namesToInstall W fl args st1.pkg).filterMap W.LookupManager) ++
            [⟨.Write fl.manifestFlag, w⟩]) ∨
      (∃ done n rest err mgr, namesToInstall W fl args st1.pkg = done ++ n :: rest ∧
        W.LookupManager n = some mgr ∧
        (runInstall W fl args st).1 = .returned (some err) ∧
        (runInstall W fl args st).2.calls =
          st1.calls ++
            installEvents fl.rootDir fl.targetFlag (done.filterMap W.LookupManager) ++
            [⟨.SetRoot mgr fl.rootDir, none⟩, ⟨.Install mgr fl.targetFlag, some err⟩])) := by
  obtain ⟨hk, hp, hc⟩ := skipInstalled_spec W fl args st1
  have hrun : runInstall W fl args st = writeIfNil W fl
      (applyCommand W fl.rootDir (installStep W) (namesToInstall W fl args st1.pkg)
        fl.targetFlag (skipInstalled W fl args st1).2) := by
    simp only [runInstall, hinit, hk, namesToInstall]
  refine ⟨hk, ?_, ?_, ?_, ?_⟩
  · intro hf
    simp [namesToInstall, hf]
  · intro hf n
    simp [namesToInstall, hf]
  · intro hnil
    rw [hrun, hnil]
    simp [applyCommand, writeIfNil, callWrite, State.record, hp, hc]
  · have hreg2 : ∀ n ∈ namesToInstall W fl args st1.pkg, W.LookupManager n ≠ none :=
      fun n hn => hreg n (List.mem_of_mem_filter hn)
    rw [hrun]
    rcases applyCommand_install_events W fl.rootDir fl.targetFlag _ hreg2
        (skipInstalled W fl args st1).2 with ⟨h1, h2⟩ | ⟨done, n, rest, err, mgr, hd, hm, h1, h2⟩
    · left
      rcases ha : applyCommand W fl.rootDir (installStep W) (namesToInstall W fl args st1.pkg)
        fl.targetFlag (skipInstalled W fl args st1).2 with ⟨o, s⟩
      rw [ha] at h1 h2
      simp only [] at h1 h2
      subst h1
      refine ⟨_, rfl, ?_⟩
      simp [writeIfNil, callWrite, State.record, h2, hc]
    · right
      rcases ha : applyCommand W fl.rootDir (installStep W) (namesToInstall W fl args st1.pkg)
        fl.targetFlag (skipInstalled W fl args st1).2 with ⟨o, s⟩
      rw [ha] at h1 h2
      simp only [] at h1 h2
      subst h1
      refine ⟨done, n, rest, err, mgr, hd, hm, rfl, ?_⟩
      simp only [writeIfNil]; rw [h2, hc]

/-- C1, as stated, fails: `java` and `go` both lack the target, so both
remain after the skip, but `Install` of `java` fails and `Install` is never
called for `go`. -/
theorem runInstall_first_fails_second_not_installed :
    exampleWorld.HasTarget "java" exampleFlags.targetFlag ⟨[], []⟩ = false ∧
    exampleWorld.HasTarget "go" exampleFlags.targetFlag ⟨[], []⟩ = false ∧
    (runInstall exampleWorld exampleFlags ["java", "go"] (exampleState [])).2.calls =
      [⟨.Read "/jiri/.jiri_manifest", none⟩, ⟨.SetRoot "java" "/jiri", none⟩,
       ⟨.Install "java" exampleTarget, some (.errorf "install failed")⟩] := by
  decide

/-- The theorem `runInstall_skips_installed` on the argument `go` with the
target of `go` already in the manifest: the name is skipped, and the only call
after the read is the manifest write. -/
theorem runInstall_skips_installed_witness :
    initCommand exampleWorld exampleFlags ["go"]
        (exampleState [⟨"go", "/jiri/profiles", [exampleTarget]⟩]) =
      (none, (initCommand exampleWorld exampleFlags ["go"]
        (exampleState [⟨"go", "/jiri/profiles", [exampleTarget]⟩])).2) ∧
    (∀ n ∈ ["go"], exampleWorld.LookupManager n ≠ none) ∧
    namesToInstall exampleWorld exampleFlags ["go"]
      (initCommand exampleWorld exampleFlags ["go"]
        (exampleState [⟨"go", "/jiri/profiles", [exampleTarget]⟩])).2.pkg = [] ∧
    (runInstall exampleWorld exampleFlags ["go"]
        (exampleState [⟨"go", "/jiri/profiles", [exampleTarget]⟩])).2.calls =
      [⟨.Read "/jiri/.jiri_manifest", none⟩, ⟨.Write "/jiri/.jiri_manifest", none⟩] :=
  ⟨rfl, by decide, by decide,
    ((runInstall_skips_installed exampleWorld exampleFlags ["go"]
      (exampleState [⟨"go", "/jiri/profiles", [exampleTarget]⟩]) _ rfl (by decide)).2.2.2.1
      (by decide)).2.1⟩

/-! ## `runEnv` -/

/-- Text without `%` is copied as it is. -/
theorem expandVerbs_plain (W : World σ μ) (l : List Char) (h : ∀ c ∈ l, c ≠ '%') :
    expandVerbs W l = l := by
  induction l with
  | nil => rfl
  | cons c rest ih =>
    have hc : c ≠ '%' := h c (List.mem_cons_self _ _)
    rw [expandVerbs.eq_def]
    simp only [ne_eq, hc, not_false_eq_true, if_true]
    rw [ih (fun x hx => h x (List.mem_cons_of_mem _ hx))]

/-- A format without `%` is written as it is. -/
theorem Fprintf0_plain (W : World σ μ) (s : String) (h : ∀ c ∈ s.data, c ≠ '%') :
    Fprintf0 W s = s := by
  simp only [Fprintf0, expandVerbs_plain W s.data h]

/-- Trimming gives back a text to which one blank was appended. -/
theorem TrimSuffix_append_space (s : String) : TrimSuffix (s ++ " ") " " = s := by
  have h1 : (s ++ " ").data = s.data ++ [' '] := rfl
  have h2 : (" " : String).data = [' '] := rfl
  have h3 : ([' '] : List Char).isSuffixOf (s.data ++ [' ']) = true := by
    rw [List.isSuffixOf_iff_suffix]
    exact List.suffix_append _ _
  simp only [TrimSuffix, h1, h2, h3, if_true]
  simp

/-- A loop that appends a piece for each element appends the pieces in order. -/
theorem foldl_append_eq_concatText {α : Type} (f : α → String) (l : List α) (buf : String) :
    l.foldl (fun b x => b ++ f x) buf = buf ++ concatText (l.map f) := by
  induction l generalizing buf with
  | nil => simp [concatText]
  | cons x l ih =>
    simp only [List.foldl_cons, List.map_cons]
    rw [ih]
    simp [concatText, String.append_assoc]

/-- The buffer filled when no name is requested: one entry for each declared
variable, then one for each pseudo variable, each in the order `range` visits
them. -/
theorem envAll_entries (W : World σ μ) (vars : List (String × String)) (target : Target) :
    envAll W vars target =
      concatText ((W.rangeVars vars).map (fun kv => SprintfKeyQuoted W kv.1 kv.2) ++
        (W.rangePseudo pseudoVariables).map
          (fun kf => SprintfKeyQuoted W kf.1 (kf.2 target))) := by
  simp only [envAll]
  rw [foldl_append_eq_concatText (fun kv : String × String => SprintfKeyQuoted W kv.1 kv.2),
    foldl_append_eq_concatText
      (fun kf : String × (Target → String) => SprintfKeyQuoted W kf.1 (kf.2 target))]
  simp only [String.empty_append]
  generalize (W.rangeVars vars).map (fun kv => SprintfKeyQuoted W kv.1 kv.2) = xs
  induction xs with
  | nil => simp [concatText]
  | cons x xs ih => simp only [concatText, List.foldr_cons, List.cons_append] at ih ⊢; rw [← ih, String.append_assoc]

/-- The text of two lists of pieces, one after the other. -/
theorem concatText_append (a b : List String) :
    concatText (a ++ b) = concatText a ++ concatText b := by
  induction a with
  | nil => simp [concatText]
  | cons x a ih =>
    simp only [concatText, List.cons_append, List.foldr_cons] at ih ⊢
    rw [ih, String.append_assoc]

/-- The text of pieces whose last one ends in a blank. -/
theorem concatText_snoc_space (l : List String) (e : String) :
    concatText (l ++ [e ++ " "]) = (concatText l ++ e) ++ " " := by
  rw [concatText_append]
  have : concatText [e ++ " "] = e ++ " " := by
    show (e ++ " ") ++ "" = e ++ " "
    rw [String.append_empty]
  rw [this, String.append_assoc]

/-- What `runEnv` hands to `fmt.Fprintf` when no name is requested and the
profile and its target are found: the entries `NAME="value"` of the declared
variables and of the pseudo variables, each followed by a blank, less the last
blank, and then a newline.  It is printed as it is when it holds no `%`; it is
a format, not an operand, so that a `%` in it is read as a verb. -/
theorem runEnv_all_prints_entries (W : World σ μ) (fl : Flags) (st : State σ μ) (pkg1 : σ)
    (profile : Profile) (target : Target)
    (hflag : fl.profileFlag.length ≠ 0)
    (hread : W.Read fl.manifestFlag st.pkg = (none, pkg1))
    (hprofile : W.LookupProfile fl.profileFlag pkg1 = some profile)
    (htarget : W.FindTarget profile.Targets fl.targetFlag = some target)
    (hrange : (W.rangePseudo pseudoVariables).length = pseudoVariables.length) :
    ∃ text : String,
      text ++ " " =
        concatText ((W.rangeVars (SliceToMap target.Vars)).map
            (fun kv => SprintfKeyQuoted W kv.1 kv.2) ++
          (W.rangePseudo pseudoVariables).map
            (fun kf => SprintfKeyQuoted W kf.1 (kf.2 target))) ∧
      (runEnv W fl [] st).1 = .returned none ∧
      (runEnv W fl [] st).2.stdout = st.stdout ++ Fprintf0 W (text ++ "\n") ∧
      ((∀ c ∈ text.data, c ≠ '%') →
        (runEnv W fl [] st).2.stdout = st.stdout ++ (text ++ "\n")) := by
  obtain ⟨init, last, hl⟩ : ∃ init last, W.rangePseudo pseudoVariables = init ++ [last] := by
    have hne : W.rangePseudo pseudoVariables ≠ [] := by
      intro h; rw [h] at hrange; simp [pseudoVariables] at hrange
    exact ⟨_, _, (List.dropLast_append_getLast hne).symm⟩
  have hentries : (W.rangeVars (SliceToMap target.Vars)).map
        (fun kv => SprintfKeyQuoted W kv.1 kv.2) ++
        (W.rangePseudo pseudoVariables).map (fun kf => SprintfKeyQuoted W kf.1 (kf.2 target)) =
      ((W.rangeVars (SliceToMap target.Vars)).map (fun kv => SprintfKeyQuoted W kv.1 kv.2) ++
        init.map (fun kf => SprintfKeyQuoted W kf.1 (kf.2 target))) ++
        [(last.1 ++ "=" ++ Quote W (last.2 target)) ++ " "] := by
    rw [hl, List.map_append, List.append_assoc]
    rfl
  refine ⟨concatText ((W.rangeVars (SliceToMap target.Vars)).map
      (fun kv => SprintfKeyQuoted W kv.1 kv.2) ++
      init.map (fun kf => SprintfKeyQuoted W kf.1 (kf.2 target))) ++
      (last.1 ++ "=" ++ Quote W (last.2 target)), ?_, ?_⟩
  · rw [hentries, concatText_snoc_space]
  · have hrun : runEnv W fl [] st = (.returned none,
        ({ st.record (.Read fl.manifestFlag) none with pkg := pkg1 } : State σ μ).print
          (Fprintf0 W (TrimSuffix (envAll W (SliceToMap target.Vars) target) " " ++ "\n"))) := by
      simp [runEnv, hflag, callRead, hread, hprofile, htarget]
    rw [hrun, envAll_entries, hentries, concatText_snoc_space, TrimSuffix_append_space]
    refine ⟨rfl, rfl, fun hp => ?_⟩
    rw [Fprintf0_plain]
    · rfl
    · intro c hc
      have : c ∈ _ ++ ['\n'] := hc
      rcases List.mem_append.1 this with h | h
      · exact hp c h
      · simp only [List.mem_singleton] at h
        subst h; decide

/-- The theorem `runEnv_all_prints_entries` on the example profile `go`
declaring `FOO=a`. -/
theorem runEnv_all_prints_entries_witness :
    (runEnv exampleWorld exampleEnvFlags [] (exampleState (exampleEnvManifest ["FOO=a"]))).1 =
      .returned none :=
  (runEnv_all_prints_entries exampleWorld exampleEnvFlags
    (exampleState (exampleEnvManifest ["FOO=a"])) _ _ _ (by decide) rfl rfl rfl rfl).choose_spec.2.1

/-- C8, on the code: the declared variable `FOO` has the value `a` followed by
a blank; `env FOO=` returns nil and prints `a` and a newline, the blank being
trimmed with the buffer.  And for the value `100%` it prints
`100%!` newline `(MISSING)`, the value being part of the format. -/
theorem runEnv_value_only_loses_trailing_space :
    SliceToMap ["FOO=a "] = [("FOO", "a ")] ∧
    (runEnv exampleWorld exampleEnvFlags ["FOO="]
        (exampleState (exampleEnvManifest ["FOO=a "]))).1 = .returned none ∧
    (runEnv exampleWorld exampleEnvFlags ["FOO="]
        (exampleState (exampleEnvManifest ["FOO=a "]))).2.stdout = "a\n" ∧
    (runEnv exampleWorld exampleEnvFlags ["FOO="]
        (exampleState (exampleEnvManifest ["FOO=100%"]))).2.stdout = "100%!\n(MISSING)" := by
  decide

/-- C9, on the code: with the declared variable `FOO` of value `100%`, `env`
without names returns nil and prints the entry of `FOO` as
`FOO="100%!"(MISSING)`, the `%` and the quote after it being read as a verb
without operand; with the value `a` the three entries are printed as they
are. -/
theorem runEnv_all_percent_is_a_verb :
    SliceToMap ["FOO=100%"] = [("FOO", "100%")] ∧
    (runEnv exampleWorld exampleEnvFlags []
        (exampleState (exampleEnvManifest ["FOO=100%"]))).1 = .returned none ∧
    (runEnv exampleWorld exampleEnvFlags []
        (exampleState (exampleEnvManifest ["FOO=100%"]))).2.stdout =
      "FOO=\"100%!\"(MISSING) V23_TARGET_INSTALLATION_DIR=\"/x\" V23_TARGET_VERSION=\"1.0\"\n" ∧
    (runEnv exampleWorld exampleEnvFlags []
        (exampleState (exampleEnvManifest ["FOO=a"]))).2.stdout =
      "FOO=\"a\" V23_TARGET_INSTALLATION_DIR=\"/x\" V23_TARGET_VERSION=\"1.0\"\n" := by
  decide

end Commandline
